import Mathlib

/-!
Shallow embedding of the flywheel position controller (src/flywheel.py) and of
the slot-calibration script (src/configure_fw.py), together with proofs of the
behavioural properties stated in the specification.

Hardware side effects (VISA adapter, waveform-generator pulses, sleeps) do not
influence the slot-tracking state and are omitted; everything that touches
`slot_count` / `current_slot` is translated statement by statement.  Power-meter
readings are modelled as a function from the physical slot to a rational power
value.  Python exceptions are modelled with `Except`, the error value carrying
the controller state at the moment of the raise (the raises in the source all
happen before any mutation).
-/

namespace Optoelectronics

/-- State of `FlywheelController` (src/flywheel.py).  The constructor stores
`slot_count`, `initial_slot` and `current_slot` exactly as `__init__` does;
the opaque hardware handles are omitted. -/
structure FlywheelController where
  slot_count : Int
  initial_slot : Int
  current_slot : Int
deriving DecidableEq

/-- Errors of the controller layer: `invalidSlotError` models the `ValueError`
raised on out-of-range slot arguments (the spec names this category
`InvalidSlotError`); `indexError` models the `IndexError` that `L[0]` in the
calibration script would raise on an empty sample list.  Each constructor
carries the controller state at the moment of the raise. -/
inductive FwError where
  | invalidSlotError (msg : String) (state : FlywheelController)
  | indexError (state : FlywheelController)
deriving DecidableEq

/-- `FlywheelController.__init__` (src/flywheel.py lines 9-12): stores the
caller-supplied slot count and initial slot with no range validation;
`initial_slot` and `current_slot` are both set to the argument. -/
def FlywheelController.init (slot_count initial_slot : Int) : FlywheelController :=
  { slot_count := slot_count, initial_slot := initial_slot, current_slot := initial_slot }

/-- `_pulse_once` (src/flywheel.py lines 27-36): issues one forward pulse,
then increments `current_slot`, wrapping back to `1` when it exceeds
`slot_count`. -/
def pulse_once (fw : FlywheelController) : FlywheelController :=
  let c := fw.current_slot + 1
  if c > fw.slot_count then { fw with current_slot := 1 } else { fw with current_slot := c }

/-- `n` successive `_pulse_once` calls: the body of the `for` loop in `step`
and of the sampling loop in the calibration script. -/
def pulse_iter : Nat → FlywheelController → FlywheelController
  | 0, fw => fw
  | n + 1, fw => pulse_iter n (pulse_once fw)

/-- The `while self.current_slot != target_slot` loop of `go_to_slot`
(src/flywheel.py lines 46-47), with an explicit budget of pulses.  Returns the
final state and the number of `_pulse_once` calls issued, or `none` when the
budget is exhausted with the loop still running. -/
def go_to_loop : Nat → FlywheelController → Int → Option (FlywheelController × Nat)
  | 0, fw, target => if fw.current_slot = target then some (fw, 0) else none
  | fuel + 1, fw, target =>
    if fw.current_slot = target then some (fw, 0)
    else
      match go_to_loop fuel (pulse_once fw) target with
      | some (fw', k) => some (fw', k + 1)
      | none => none

/-- `go_to_slot` (src/flywheel.py lines 38-51): validates
`1 <= target_slot <= slot_count` (raising `ValueError` otherwise, before any
motion), then pulses until `current_slot == target_slot`. -/
def go_to_slot (fuel : Nat) (fw : FlywheelController) (target_slot : Int) :
    Except FwError (Option (FlywheelController × Nat)) :=
  if ¬ (1 ≤ target_slot ∧ target_slot ≤ fw.slot_count) then
    Except.error (.invalidSlotError ("Target slot must be in 1 to " ++ toString fw.slot_count) fw)
  else
    Except.ok (go_to_loop fuel fw target_slot)

/-- `step` (src/flywheel.py lines 53-58): runs `_pulse_once` for
`count % slot_count` iterations, where `%` is Python's modulo on integers,
i.e. `Int.emod` (non-negative result for a positive modulus).  The in-loop
`time.sleep` does not affect the slot state. -/
def step (fw : FlywheelController) (count : Int) : FlywheelController :=
  pulse_iter (count.emod fw.slot_count).toNat fw

/-- `get_current_slot` (src/flywheel.py lines 60-61): pure read. -/
def get_current_slot (fw : FlywheelController) : Int :=
  fw.current_slot

/-- `reset_slot` (src/flywheel.py lines 63-67): validates the argument
(raising `ValueError` otherwise), then overwrites `current_slot` without any
physical motion. -/
def reset_slot (fw : FlywheelController) (known_slot : Int) :
    Except FwError FlywheelController :=
  if ¬ (1 ≤ known_slot ∧ known_slot ≤ fw.slot_count) then
    Except.error (.invalidSlotError "Invalid slot number" fw)
  else
    Except.ok { fw with current_slot := known_slot }

/-- The sampling loop of src/configure_fw.py (lines 7-11): for each of `n`
iterations, append `(get_current_slot, power reading)` to the list, then
`_pulse_once`.  `power` maps the physical slot to the meter reading.  Returns
the recorded list and the controller state after the loop.  (The `print` in
the loop body reads the meter again but changes no state.) -/
def calibrate_samples : Nat → FlywheelController → (Int → ℚ) →
    List (Int × ℚ) × FlywheelController
  | 0, fw, _ => ([], fw)
  | n + 1, fw, power =>
    let sample := (get_current_slot fw, power (get_current_slot fw))
    let rest := calibrate_samples n (pulse_once fw) power
    (sample :: rest.1, rest.2)

/-- The max-selection loop of src/configure_fw.py (lines 14-16):
`for i, j in L: if j > max: max = j; slot_1 = i`, with accumulator
`acc = (slot_1, max)`.  Note the strictly-greater comparison: ties keep the
earlier element. -/
def select_loop (acc : Int × ℚ) : List (Int × ℚ) → Int × ℚ
  | [] => acc
  | (i, j) :: rest => if j > acc.2 then select_loop (i, j) rest else select_loop acc rest

/-- Lines 13-16 of src/configure_fw.py: seed the accumulator with
`(L[0][0], L[0][1])` and run the selection loop over all of `L`
(`none` models the `IndexError` of `L[0]` on an empty list). -/
def select_slot_1 (L : List (Int × ℚ)) : Option (Int × ℚ) :=
  match L with
  | [] => none
  | x :: _ => some (select_loop x L)

/-- The calibration part of src/configure_fw.py (lines 7-21): sample every
slot over one full rotation, select the power-maximising slot, physically move
there with `go_to_slot`, then relabel the position as logical slot 1 by the
direct assignment `fw.current_slot = 1`.  `Except.ok none` means the
`go_to_slot` pulse budget ran out. -/
def configure_fw (fuel : Nat) (fw : FlywheelController) (power : Int → ℚ) :
    Except FwError (Option FlywheelController) :=
  let sampled := calibrate_samples fw.slot_count.toNat fw power
  match select_slot_1 sampled.1 with
  | none => Except.error (.indexError sampled.2)
  | some sel =>
    match go_to_slot fuel sampled.2 sel.1 with
    | Except.error e => Except.error e
    | Except.ok none => Except.ok none
    | Except.ok (some (fw2, _)) => Except.ok (some { fw2 with current_slot := 1 })

/-- The range invariant of the spec: `current_slot` lies in `[1, slot_count]`. -/
def Inv (fw : FlywheelController) : Prop :=
  1 ≤ fw.current_slot ∧ fw.current_slot ≤ fw.slot_count

instance (fw : FlywheelController) : Decidable (Inv fw) := by
  unfold Inv; infer_instance

/-- Number of forward pulses needed to go from slot `s` to slot `t` on a ring
of `N` slots (forward-only motion). -/
def slotDist (s t N : Int) : Nat :=
  if s ≤ t then (t - s).toNat else (t - s + N).toNat

/-- `_pulse_once` on an explicit state: the slot becomes `s + 1`, wrapping to
`1` past `slot_count`; the other fields are untouched. -/
lemma pulse_once_eq (N i s : Int) :
    pulse_once ⟨N, i, s⟩ = ⟨N, i, if s + 1 > N then 1 else s + 1⟩ := by
  unfold pulse_once
  dsimp only
  split <;> simp_all

/-- `_pulse_once` never changes `slot_count`. -/
lemma pulse_once_slot_count (fw : FlywheelController) :
    (pulse_once fw).slot_count = fw.slot_count := by
  obtain ⟨N, i, s⟩ := fw
  rw [pulse_once_eq]

/-- The invariant on an explicit state. -/
lemma Inv_mk (N i s : Int) : Inv ⟨N, i, s⟩ ↔ 1 ≤ s ∧ s ≤ N := Iff.rfl

/-- Adding the modulus on the left of `Int.emod` changes nothing. -/
lemma emod_add_self (a b : Int) : (a + b).emod b = a.emod b := by
  have h : a + b = a + b * 1 := by ring
  rw [h]
  exact @Int.add_mul_emod_self_left a b 1

/-- `Int.emod` is the identity below the modulus (restated for `emod`). -/
lemma emod_eq_self (a b : Int) (h1 : 0 ≤ a) (h2 : a < b) : a.emod b = a :=
  Int.emod_eq_of_lt h1 h2

/-- `_pulse_once` preserves the range invariant. -/
lemma pulse_once_inv (fw : FlywheelController) (h : Inv fw) : Inv (pulse_once fw) := by
  obtain ⟨N, i, s⟩ := fw
  rw [Inv_mk] at h
  rw [pulse_once_eq]
  rw [Inv_mk]
  split <;> omega

/-- Iterated pulses preserve the range invariant. -/
lemma pulse_iter_inv (k : Nat) :
    ∀ fw : FlywheelController, Inv fw → Inv (pulse_iter k fw) := by
  induction k with
  | zero => intro fw h; exact h
  | succ k ih => intro fw h; exact ih (pulse_once fw) (pulse_once_inv fw h)

/-- Iterated pulses never change `slot_count`. -/
lemma pulse_iter_slot_count (k : Nat) :
    ∀ fw : FlywheelController, (pulse_iter k fw).slot_count = fw.slot_count := by
  induction k with
  | zero => intro fw; rfl
  | succ k ih =>
    intro fw
    calc (pulse_iter k (pulse_once fw)).slot_count
        = (pulse_once fw).slot_count := ih (pulse_once fw)
      _ = fw.slot_count := pulse_once_slot_count fw

/-- Position after `k` pulses from a valid state: modular arithmetic on the
zero-based slot index. -/
lemma pulse_iter_pos (k : Nat) :
    ∀ fw : FlywheelController, Inv fw →
      pulse_iter k fw =
        { fw with current_slot := (fw.current_slot - 1 + k).emod fw.slot_count + 1 } := by
  induction k with
  | zero =>
    intro fw hInv
    obtain ⟨N, i, s⟩ := fw
    obtain ⟨h1, h2⟩ := hInv
    dsimp only at h1 h2 ⊢
    have h0 : (s - 1 + ((0 : Nat) : Int)).emod N = s - 1 := by
      have hc : ((0 : Nat) : Int) = 0 := rfl
      rw [hc, add_zero]
      exact Int.emod_eq_of_lt (by omega) (by omega)
    simp only [pulse_iter, h0]
    congr 1
    omega
  | succ k ih =>
    intro fw hInv
    obtain ⟨N, i, s⟩ := fw
    rw [Inv_mk] at hInv
    obtain ⟨h1, h2⟩ := hInv
    have hstep : pulse_iter (k + 1) (⟨N, i, s⟩ : FlywheelController)
        = pulse_iter k (pulse_once ⟨N, i, s⟩) := rfl
    rw [hstep, pulse_once_eq]
    by_cases hs : s + 1 > N
    · rw [if_pos hs]
      rw [ih ⟨N, i, 1⟩ ((Inv_mk N i 1).mpr ⟨le_refl 1, by omega⟩)]
      dsimp only
      have harg : (1 : Int) - 1 + (k : Int) = (k : Int) := by omega
      have harg2 : s - 1 + ((k + 1 : Nat) : Int) = (k : Int) + N := by push_cast; omega
      rw [harg, harg2, emod_add_self]
    · rw [if_neg hs]
      rw [ih ⟨N, i, s + 1⟩ ((Inv_mk N i (s + 1)).mpr ⟨by omega, by omega⟩)]
      dsimp only
      have harg : s + 1 - 1 + (k : Int) = s - 1 + ((k + 1 : Nat) : Int) := by push_cast; ring
      rw [harg]

/-- One full rotation (`slot_count` pulses) from a valid state returns the
controller to exactly its starting state. -/
lemma pulse_iter_ring (fw : FlywheelController) (hInv : Inv fw) :
    pulse_iter fw.slot_count.toNat fw = fw := by
  obtain ⟨N, i, s⟩ := fw
  rw [Inv_mk] at hInv
  obtain ⟨h1, h2⟩ := hInv
  dsimp only
  rw [pulse_iter_pos N.toNat ⟨N, i, s⟩ ((Inv_mk N i s).mpr ⟨h1, h2⟩)]
  dsimp only
  have hN : ((N.toNat : Int)) = N := Int.toNat_of_nonneg (by omega)
  rw [hN, emod_add_self, emod_eq_self (s - 1) N (by omega) (by omega)]
  congr 1
  omega

/-- From a valid non-target slot, one pulse brings the forward distance to the
target down by exactly one. -/
lemma slotDist_pulse (N s t : Int) (h1 : 1 ≤ s) (h2 : s ≤ N) (h3 : 1 ≤ t) (h4 : t ≤ N)
    (hne : s ≠ t) :
    slotDist (if s + 1 > N then 1 else s + 1) t N + 1 = slotDist s t N := by
  unfold slotDist
  split_ifs <;> omega

/-- The forward distance between two valid slots is at most `N - 1`. -/
lemma slotDist_le (N s t : Int) (h1 : 1 ≤ s) (h2 : s ≤ N) (h3 : 1 ≤ t) (h4 : t ≤ N) :
    slotDist s t N ≤ (N - 1).toNat := by
  unfold slotDist
  split <;> omega

/-- The `go_to_slot` loop, run with a budget of at least the forward distance
`d` to a valid target, stops with the target reached and reports exactly `d`
pulses issued. -/
lemma go_to_loop_spec (d : Nat) :
    ∀ (fuel : Nat) (fw : FlywheelController) (t : Int), Inv fw →
      1 ≤ t → t ≤ fw.slot_count →
      slotDist fw.current_slot t fw.slot_count = d → d ≤ fuel →
      go_to_loop fuel fw t = some ({ fw with current_slot := t }, d) := by
  induction d with
  | zero =>
    intro fuel fw t hInv ht1 ht2 hd _
    obtain ⟨N, i, s⟩ := fw
    rw [Inv_mk] at hInv
    obtain ⟨h1, h2⟩ := hInv
    dsimp only at ht2 hd ⊢
    have hst : s = t := by
      unfold slotDist at hd
      split at hd <;> omega
    cases fuel <;> simp [go_to_loop, hst]
  | succ d ih =>
    intro fuel fw t hInv ht1 ht2 hd hle
    obtain ⟨N, i, s⟩ := fw
    rw [Inv_mk] at hInv
    obtain ⟨h1, h2⟩ := hInv
    dsimp only at ht2 hd ⊢
    have hne : s ≠ t := by
      intro h
      rw [h] at hd
      unfold slotDist at hd
      split at hd <;> omega
    obtain ⟨f, rfl⟩ : ∃ f, fuel = f + 1 := ⟨fuel - 1, by omega⟩
    have hrec := ih f (pulse_once ⟨N, i, s⟩) t (pulse_once_inv _ ((Inv_mk N i s).mpr ⟨h1, h2⟩))
      ht1 (by rw [pulse_once_slot_count]; exact ht2)
    rw [pulse_once_eq] at hrec
    dsimp only at hrec
    have hdist : slotDist (if s + 1 > N then 1 else s + 1) t N = d := by
      have := slotDist_pulse N s t h1 h2 ht1 ht2 hne
      omega
    have hrec2 := hrec hdist (by omega)
    show go_to_loop (f + 1) ⟨N, i, s⟩ t = _
    rw [go_to_loop, if_neg hne, pulse_once_eq, hrec2]
/-- Whatever state the `go_to_slot` loop returns satisfies the range
invariant whenever its input did. -/
lemma go_to_loop_inv (fuel : Nat) :
    ∀ (fw : FlywheelController) (t : Int) (fw' : FlywheelController) (n : Nat),
      Inv fw → go_to_loop fuel fw t = some (fw', n) → Inv fw' := by
  induction fuel with
  | zero =>
    intro fw t fw' n hInv h
    unfold go_to_loop at h
    split at h
    · simp only [Option.some.injEq, Prod.mk.injEq] at h
      rw [← h.1]
      exact hInv
    · cases h
  | succ f ih =>
    intro fw t fw' n hInv h
    rw [go_to_loop] at h
    split at h
    · simp only [Option.some.injEq, Prod.mk.injEq] at h
      rw [← h.1]
      exact hInv
    · cases hm : go_to_loop f (pulse_once fw) t with
      | none => rw [hm] at h; cases h
      | some p =>
        obtain ⟨fw'', m⟩ := p
        rw [hm] at h
        simp only [Option.some.injEq, Prod.mk.injEq] at h
        rw [← h.1]
        exact ih (pulse_once fw) t fw'' m (pulse_once_inv fw hInv) hm

/-- C1: for every slot count `N ≥ 2`, every valid starting slot and every
valid target `t`, `go_to_slot t` run with a pulse budget of `N - 1` returns
normally, issuing `k ≤ N - 1` calls to `_pulse_once`, and afterwards
`current_slot = t`. -/
theorem go_to_slot_terminates (fw : FlywheelController) (t : Int)
    (_hN : 2 ≤ fw.slot_count) (hInv : Inv fw) (ht1 : 1 ≤ t) (ht2 : t ≤ fw.slot_count) :
    ∃ (fw' : FlywheelController) (k : Nat),
      go_to_slot (fw.slot_count - 1).toNat fw t = Except.ok (some (fw', k)) ∧
      k ≤ (fw.slot_count - 1).toNat ∧ fw'.current_slot = t := by
  obtain ⟨h1, h2⟩ := hInv
  refine ⟨{ fw with current_slot := t }, slotDist fw.current_slot t fw.slot_count, ?_, ?_, rfl⟩
  · unfold go_to_slot
    rw [if_neg (not_not_intro ⟨ht1, ht2⟩)]
    rw [go_to_loop_spec (slotDist fw.current_slot t fw.slot_count)
      (fw.slot_count - 1).toNat fw t ⟨h1, h2⟩ ht1 ht2 rfl
      (slotDist_le fw.slot_count fw.current_slot t h1 h2 ht1 ht2)]
  · exact slotDist_le fw.slot_count fw.current_slot t h1 h2 ht1 ht2

/-- Witness for C1 at `N = 6`, start `2`, target `5`. -/
theorem go_to_slot_terminates_witness :
    ((2 : Int) ≤ 6 ∧ Inv ⟨6, 2, 2⟩ ∧ (1 : Int) ≤ 5 ∧ (5 : Int) ≤ 6) ∧
    ∃ (fw' : FlywheelController) (k : Nat),
      go_to_slot (((6 : Int) - 1)).toNat ⟨6, 2, 2⟩ 5 = Except.ok (some (fw', k)) ∧
      k ≤ (((6 : Int) - 1)).toNat ∧ fw'.current_slot = 5 := by
  refine ⟨⟨by decide, by decide, by decide, by decide⟩, ?_⟩
  have h := go_to_slot_terminates ⟨6, 2, 2⟩ 5 (by decide) (by decide) (by decide) (by decide)
  exact h

/-- C2: from any state satisfying the range invariant, every operation of the
controller keeps `current_slot` in `[1, slot_count]` — `_pulse_once` (with
its `N + 1 → 1` wrap), `step` with any count, any state returned normally by
`reset_slot`, any state reached by a normal `go_to_slot` return, and the pure
read `get_current_slot`. -/
theorem operations_preserve_inv (fw : FlywheelController) (count k target : Int)
    (fuel n : Nat) (fw₁ fw₂ : FlywheelController) (hInv : Inv fw) :
    Inv (pulse_once fw) ∧
    Inv (step fw count) ∧
    (reset_slot fw k = Except.ok fw₁ → Inv fw₁) ∧
    (go_to_slot fuel fw target = Except.ok (some (fw₂, n)) → Inv fw₂) ∧
    get_current_slot fw = fw.current_slot := by
  refine ⟨pulse_once_inv fw hInv, pulse_iter_inv _ fw hInv, ?_, ?_, rfl⟩
  · intro h
    unfold reset_slot at h
    split at h
    · cases h
    · rename_i hc
      rw [not_not] at hc
      simp only [Except.ok.injEq] at h
      rw [← h]
      exact ⟨hc.1, hc.2⟩
  · intro h
    unfold go_to_slot at h
    split at h
    · cases h
    · simp only [Except.ok.injEq] at h
      exact go_to_loop_inv fuel fw target fw₂ n hInv h

/-- Witness for C2 at `N = 6`, state `3`, with concrete arguments. -/
theorem operations_preserve_inv_witness :
    Inv ⟨6, 1, 3⟩ ∧
    (Inv (pulse_once ⟨6, 1, 3⟩) ∧
     Inv (step ⟨6, 1, 3⟩ 5) ∧
     (reset_slot ⟨6, 1, 3⟩ 4 = Except.ok ⟨6, 1, 4⟩ → Inv ⟨6, 1, 4⟩) ∧
     (go_to_slot 6 ⟨6, 1, 3⟩ 2 = Except.ok (some (⟨6, 1, 2⟩, 5)) → Inv ⟨6, 1, 2⟩) ∧
     get_current_slot ⟨6, 1, 3⟩ = (⟨6, 1, 3⟩ : FlywheelController).current_slot) :=
  ⟨by decide, operations_preserve_inv ⟨6, 1, 3⟩ 5 4 2 6 5 ⟨6, 1, 4⟩ ⟨6, 1, 2⟩ (by decide)⟩

/-- C3: from any valid state, exactly `slot_count` calls to `_pulse_once`
bring `current_slot` back to where it started (ring closure). -/
theorem ring_closure (fw : FlywheelController) (hInv : Inv fw) :
    (pulse_iter fw.slot_count.toNat fw).current_slot = fw.current_slot := by
  rw [pulse_iter_ring fw hInv]

/-- Witness for C3 at `N = 6`, start slot `4`. -/
theorem ring_closure_witness :
    Inv ⟨6, 1, 4⟩ ∧
    (pulse_iter ((6 : Int)).toNat ⟨6, 1, 4⟩).current_slot =
      (⟨6, 1, 4⟩ : FlywheelController).current_slot :=
  ⟨by decide, ring_closure ⟨6, 1, 4⟩ (by decide)⟩

/-- Conversion between Python's `%` on integers (`Int.emod`) and the
mathematical `count mod N` on naturals, for non-negative `count`. -/
lemma emod_toNat (count N : Int) (hc : 0 ≤ count) (hN : 1 ≤ N) :
    (count.emod N).toNat = count.toNat % N.toNat := by
  have h1 : ((count.toNat % N.toNat : Nat) : Int) = count.emod N := by
    push_cast
    rw [Int.toNat_of_nonneg hc, Int.toNat_of_nonneg (by omega)]
    rfl
  rw [← h1, Int.toNat_natCast]

/-- C4: for every non-negative `count` and valid state, `step count` leaves
the controller in exactly the state produced by `count mod N` sequential
`_pulse_once` calls. -/
theorem step_eq_mod_advances (fw : FlywheelController) (count : Int)
    (hInv : Inv fw) (hc : 0 ≤ count) :
    step fw count = pulse_iter (count.toNat % fw.slot_count.toNat) fw := by
  obtain ⟨h1, h2⟩ := hInv
  unfold step
  rw [emod_toNat count fw.slot_count hc (by omega)]

/-- Witness for C4 at `N = 6`, state `2`, `count = 7`. -/
theorem step_eq_mod_advances_witness :
    (Inv ⟨6, 1, 2⟩ ∧ (0 : Int) ≤ 7) ∧
    step ⟨6, 1, 2⟩ 7 = pulse_iter ((7 : Int).toNat % ((6 : Int)).toNat) ⟨6, 1, 2⟩ :=
  ⟨⟨by decide, by decide⟩, step_eq_mod_advances ⟨6, 1, 2⟩ 7 (by decide) (by decide)⟩

/-- C5: for every out-of-range argument (`k ≤ 0` or `k > slot_count`), both
`go_to_slot` and `reset_slot` raise the invalid-slot error before any motion:
the error value carries the entry state unchanged, and no pulse is issued. -/
theorem invalid_slot_rejected (fw : FlywheelController) (k : Int) (fuel : Nat)
    (h : k ≤ 0 ∨ fw.slot_count < k) :
    go_to_slot fuel fw k =
      Except.error
        (.invalidSlotError ("Target slot must be in 1 to " ++ toString fw.slot_count) fw) ∧
    reset_slot fw k = Except.error (.invalidSlotError "Invalid slot number" fw) := by
  have hc : ¬ (1 ≤ k ∧ k ≤ fw.slot_count) := by
    intro hk
    rcases h with h | h <;> omega
  constructor
  · unfold go_to_slot
    rw [if_pos hc]
  · unfold reset_slot
    rw [if_pos hc]

/-- Witness for C5 at `N = 6`, argument `7`. -/
theorem invalid_slot_rejected_witness :
    ((7 : Int) ≤ 0 ∨ (6 : Int) < 7) ∧
    (go_to_slot 3 ⟨6, 1, 2⟩ 7 =
      Except.error
        (.invalidSlotError ("Target slot must be in 1 to " ++ toString (6 : Int)) ⟨6, 1, 2⟩) ∧
     reset_slot ⟨6, 1, 2⟩ 7 =
      Except.error (.invalidSlotError "Invalid slot number" ⟨6, 1, 2⟩)) :=
  ⟨Or.inr (by decide), invalid_slot_rejected ⟨6, 1, 2⟩ 7 3 (Or.inr (by decide))⟩

/-- C9: the constructor performs no range validation — for every integer
`initial_slot`, construction is a total function (it cannot raise) that
stores the value verbatim in `current_slot`; by contrast, `reset_slot`
rejects the same value whenever it is out of range. -/
theorem init_unvalidated (N j : Int) :
    (FlywheelController.init N j).current_slot = j ∧
    (FlywheelController.init N j).slot_count = N ∧
    ((j ≤ 0 ∨ N < j) →
      reset_slot (FlywheelController.init N j) j =
        Except.error
          (.invalidSlotError "Invalid slot number" (FlywheelController.init N j))) := by
  refine ⟨rfl, rfl, fun h => ?_⟩
  unfold reset_slot
  rw [if_pos ?_]
  intro hk
  rw [show (FlywheelController.init N j).slot_count = N from rfl] at hk
  rcases h with h | h <;> omega

/-- Witness for C9 at `N = 6`, out-of-range initial slot `0`. -/
theorem init_unvalidated_witness :
    (FlywheelController.init 6 0).current_slot = 0 ∧
    ((0 : Int) ≤ 0 ∨ (6 : Int) < 0) ∧
    reset_slot (FlywheelController.init 6 0) 0 =
      Except.error (.invalidSlotError "Invalid slot number" (FlywheelController.init 6 0)) :=
  ⟨(init_unvalidated 6 0).1, Or.inl (by decide),
    (init_unvalidated 6 0).2.2 (Or.inl (by decide))⟩

/-- C10: for every negative `count`, `step` is still a total function (Python
`%` with a positive modulus yields a non-negative value) and performs `n`
forward advances where `n` is the unique representative of `count` modulo
`slot_count` in `[0, slot_count)`; e.g. for `N = 6`, `step (-1)` performs 5
advances. -/
theorem step_negative_wraps (fw : FlywheelController) (count : Int)
    (hInv : Inv fw) (_hneg : count < 0) :
    ∃ n : Nat, step fw count = pulse_iter n fw ∧
      (n : Int) < fw.slot_count ∧ fw.slot_count ∣ (count - (n : Int)) := by
  obtain ⟨h1, h2⟩ := hInv
  have hN : 0 < fw.slot_count := by omega
  have h0 : 0 ≤ count.emod fw.slot_count :=
    Int.emod_nonneg count (by omega : fw.slot_count ≠ 0)
  refine ⟨(count.emod fw.slot_count).toNat, rfl, ?_, ?_⟩
  · have hlt : count.emod fw.slot_count < fw.slot_count := Int.emod_lt_of_pos count hN
    omega
  · have hdef : count.emod fw.slot_count
        = count - fw.slot_count * (count / fw.slot_count) :=
      Int.emod_def count fw.slot_count
    refine ⟨count / fw.slot_count, ?_⟩
    rw [Int.toNat_of_nonneg h0, hdef]
    ring

/-- Witness for C10 at `N = 6`, `count = -1` (5 forward advances). -/
theorem step_negative_wraps_witness :
    (Inv ⟨6, 1, 1⟩ ∧ (-1 : Int) < 0) ∧
    ∃ n : Nat, step ⟨6, 1, 1⟩ (-1) = pulse_iter n ⟨6, 1, 1⟩ ∧
      (n : Int) < (6 : Int) ∧ (6 : Int) ∣ ((-1 : Int) - (n : Int)) :=
  ⟨⟨by decide, by decide⟩, step_negative_wraps ⟨6, 1, 1⟩ (-1) (by decide) (by decide)⟩

/-- Unrolling the sampling loop: sample `j` is taken at the position reached
after `j` pulses, and the loop ends in the state produced by exactly `n`
pulses. -/
lemma calibrate_samples_eq (n : Nat) :
    ∀ (fw : FlywheelController) (power : Int → ℚ),
      calibrate_samples n fw power =
        ((List.range n).map (fun j =>
            ((pulse_iter j fw).current_slot, power (pulse_iter j fw).current_slot)),
          pulse_iter n fw) := by
  induction n with
  | zero => intro fw power; rfl
  | succ n ih =>
    intro fw power
    have hstep : calibrate_samples (n + 1) fw power =
        ((get_current_slot fw, power (get_current_slot fw))
            :: (calibrate_samples n (pulse_once fw) power).1,
          (calibrate_samples n (pulse_once fw) power).2) := rfl
    rw [hstep, ih (pulse_once fw) power]
    dsimp only
    rw [List.range_succ_eq_map]
    simp only [List.map_cons, List.map_map]
    rfl

/-- C8: from any valid state, the calibration sampling phase records exactly
`slot_count` samples, one per iteration — sample `j` being taken at the slot
reached after `j` pulses — issues exactly `slot_count` `_pulse_once` calls
(its final state is that of `slot_count` iterated pulses), and that final
state is the starting state itself. -/
theorem calibration_sampling (fw : FlywheelController) (power : Int → ℚ)
    (hInv : Inv fw) :
    (calibrate_samples fw.slot_count.toNat fw power).1.length = fw.slot_count.toNat ∧
    (calibrate_samples fw.slot_count.toNat fw power).1 =
      (List.range fw.slot_count.toNat).map (fun j =>
        ((pulse_iter j fw).current_slot, power (pulse_iter j fw).current_slot)) ∧
    (calibrate_samples fw.slot_count.toNat fw power).2 = pulse_iter fw.slot_count.toNat fw ∧
    (calibrate_samples fw.slot_count.toNat fw power).2 = fw := by
  rw [calibrate_samples_eq]
  exact ⟨by simp, rfl, rfl, pulse_iter_ring fw hInv⟩

/-- Witness for C8 at `N = 6`, start slot `2`, constant power. -/
theorem calibration_sampling_witness :
    Inv ⟨6, 1, 2⟩ ∧
    ((calibrate_samples (⟨6, 1, 2⟩ : FlywheelController).slot_count.toNat ⟨6, 1, 2⟩
        (fun _ => 0)).1.length = (⟨6, 1, 2⟩ : FlywheelController).slot_count.toNat ∧
     (calibrate_samples (⟨6, 1, 2⟩ : FlywheelController).slot_count.toNat ⟨6, 1, 2⟩
        (fun _ => 0)).1 =
       (List.range (⟨6, 1, 2⟩ : FlywheelController).slot_count.toNat).map (fun j =>
         ((pulse_iter j ⟨6, 1, 2⟩).current_slot,
           (fun _ => (0 : ℚ)) (pulse_iter j ⟨6, 1, 2⟩).current_slot)) ∧
     (calibrate_samples (⟨6, 1, 2⟩ : FlywheelController).slot_count.toNat ⟨6, 1, 2⟩
        (fun _ => 0)).2 =
       pulse_iter (⟨6, 1, 2⟩ : FlywheelController).slot_count.toNat ⟨6, 1, 2⟩ ∧
     (calibrate_samples (⟨6, 1, 2⟩ : FlywheelController).slot_count.toNat ⟨6, 1, 2⟩
        (fun _ => 0)).2 = ⟨6, 1, 2⟩) :=
  ⟨by decide, calibration_sampling ⟨6, 1, 2⟩ (fun _ => 0) (by decide)⟩

/-- Running maximum of the power components of a sample list, seeded with `q`
(the value the selection loop's `max` variable starts from). -/
def maxSnd (q : ℚ) (L : List (Int × ℚ)) : ℚ :=
  L.foldl (fun m y => max m y.2) q

/-- The seed never exceeds the running maximum. -/
lemma le_maxSnd (L : List (Int × ℚ)) : ∀ q : ℚ, q ≤ maxSnd q L := by
  induction L with
  | nil => intro q; exact le_refl q
  | cons y t ih => intro q; exact le_trans (le_max_left q y.2) (ih (max q y.2))

/-- `List.find?` on a cons whose head satisfies the predicate, with the
predicate fully explicit. -/
lemma find?_cons_pos {α : Type} (p : α → Bool) (a : α) (l : List α) (h : p a = true) :
    (a :: l).find? p = some a :=
  List.find?_cons_of_pos l h

/-- `List.find?` on a cons whose head fails the predicate, with the predicate
fully explicit. -/
lemma find?_cons_neg {α : Type} (p : α → Bool) (a : α) (l : List α) (h : p a = false) :
    (a :: l).find? p = l.find? p :=
  List.find?_cons_of_neg l (by rw [h]; exact Bool.false_ne_true)

/-- The selection loop returns the first element of `acc :: L` whose power
equals the overall maximum: the strict `>` comparison never replaces the
accumulator on a tie. -/
lemma select_loop_find (L : List (Int × ℚ)) :
    ∀ acc : Int × ℚ,
      (acc :: L).find? (fun y => decide (y.2 = maxSnd acc.2 L))
        = some (select_loop acc L) := by
  induction L with
  | nil =>
    intro acc
    simp [select_loop, maxSnd, List.find?]
  | cons y t ih =>
    intro acc
    obtain ⟨i, j⟩ := y
    by_cases hgt : acc.2 < j
    · have hM : maxSnd acc.2 ((i, j) :: t) = maxSnd j t := by
        show maxSnd (max acc.2 j) t = maxSnd j t
        rw [max_eq_right (le_of_lt hgt)]
      have hsel : select_loop acc ((i, j) :: t) = select_loop (i, j) t := by
        show (if j > acc.2 then select_loop (i, j) t else select_loop acc t) = _
        rw [if_pos hgt]
      rw [hM, hsel]
      have hacc : ¬ acc.2 = maxSnd j t := by
        intro h
        have hle2 := le_maxSnd t j
        rw [← h] at hle2
        exact absurd (lt_of_lt_of_le hgt hle2) (lt_irrefl acc.2)
      rw [find?_cons_neg (fun y => decide (y.2 = maxSnd j t)) acc ((i, j) :: t)
        (decide_eq_false hacc)]
      exact ih (i, j)
    · have hle : j ≤ acc.2 := not_lt.mp hgt
      have hM : maxSnd acc.2 ((i, j) :: t) = maxSnd acc.2 t := by
        show maxSnd (max acc.2 j) t = maxSnd acc.2 t
        rw [max_eq_left hle]
      have hsel : select_loop acc ((i, j) :: t) = select_loop acc t := by
        show (if j > acc.2 then select_loop (i, j) t else select_loop acc t) = _
        rw [if_neg hgt]
      rw [hM, hsel]
      have hih := ih acc
      by_cases hacc : acc.2 = maxSnd acc.2 t
      · rw [find?_cons_pos (fun y => decide (y.2 = maxSnd acc.2 t)) acc t
          (decide_eq_true hacc)] at hih
        rw [find?_cons_pos (fun y => decide (y.2 = maxSnd acc.2 t)) acc ((i, j) :: t)
          (decide_eq_true hacc)]
        exact hih
      · have hacclt : acc.2 < maxSnd acc.2 t :=
          lt_of_le_of_ne (le_maxSnd t acc.2) hacc
        have hpj : ¬ j = maxSnd acc.2 t := by
          intro h
          rw [h] at hle
          exact absurd (lt_of_lt_of_le hacclt hle) (lt_irrefl acc.2)
        rw [find?_cons_neg (fun y => decide (y.2 = maxSnd acc.2 t)) acc t
          (decide_eq_false hacc)] at hih
        rw [find?_cons_neg (fun y => decide (y.2 = maxSnd acc.2 t)) acc ((i, j) :: t)
          (decide_eq_false hacc),
          find?_cons_neg (fun y => decide (y.2 = maxSnd acc.2 t)) (i, j) t
          (decide_eq_false hpj)]
        exact hih

/-- C7: the selection step of the calibration script returns the first sample
(in rotation order from the calibration start) whose power equals the maximum
recorded power; in particular, when two or more slots tie for the maximum,
the first-encountered one is selected, never a later one. -/
theorem select_first_max (x : Int × ℚ) (t : List (Int × ℚ)) :
    select_slot_1 (x :: t) = (x :: t).find? (fun y => decide (y.2 = maxSnd x.2 t)) := by
  have h := select_loop_find (x :: t) x
  have hM : maxSnd x.2 (x :: t) = maxSnd x.2 t := by
    show maxSnd (max x.2 x.2) t = maxSnd x.2 t
    rw [max_self]
  rw [hM] at h
  show some (select_loop x (x :: t)) = _
  rw [← h]
  by_cases hx : x.2 = maxSnd x.2 t
  · rw [find?_cons_pos (fun y => decide (y.2 = maxSnd x.2 t)) x (x :: t)
      (decide_eq_true hx),
      find?_cons_pos (fun y => decide (y.2 = maxSnd x.2 t)) x t (decide_eq_true hx)]
  · rw [find?_cons_neg (fun y => decide (y.2 = maxSnd x.2 t)) x (x :: t)
      (decide_eq_false hx)]

/-- The power profile of the spec's calibration scenario: readings
`[0.1, 0.2, 0.9, 0.3, 0.15, 0.05]` at physical slots `1..6`. -/
def demoPower : Int → ℚ := fun s =>
  if s = 1 then 1/10 else if s = 2 then 2/10 else if s = 3 then 9/10
  else if s = 4 then 3/10 else if s = 5 then 15/100 else if s = 6 then 5/100 else 0

/-- C6: for `N = 6`, start slot 1 and readings `[0.1, 0.2, 0.9, 0.3, 0.15,
0.05]` in rotation order, the script samples exactly those pairs, selects the
slot holding `0.9` (physical slot 3), physically moves there (`go_to_slot`
lands on `current_slot = 3`), relabels it as logical slot 1, and a subsequent
`get_current_slot` returns 1. -/
theorem calibration_scenario :
    (calibrate_samples (FlywheelController.init 6 1).slot_count.toNat
        (FlywheelController.init 6 1) demoPower).1 =
      [(1, 1/10), (2, 2/10), (3, 9/10), (4, 3/10), (5, 15/100), (6, 5/100)] ∧
    select_slot_1 [(1, 1/10), (2, 2/10), (3, 9/10), (4, 3/10), (5, 15/100), (6, 5/100)] =
      some (3, 9/10) ∧
    (∃ n : Nat,
      go_to_slot 6 (calibrate_samples (FlywheelController.init 6 1).slot_count.toNat
          (FlywheelController.init 6 1) demoPower).2 3 =
        Except.ok (some (⟨6, 1, 3⟩, n))) ∧
    configure_fw 6 (FlywheelController.init 6 1) demoPower = Except.ok (some ⟨6, 1, 1⟩) ∧
    get_current_slot ⟨6, 1, 1⟩ = 1 := by
  have hsamp : calibrate_samples (FlywheelController.init 6 1).slot_count.toNat
      (FlywheelController.init 6 1) demoPower =
      ([(1, 1/10), (2, 2/10), (3, 9/10), (4, 3/10), (5, 15/100), (6, 5/100)],
        ⟨6, 1, 1⟩) := rfl
  have hsel : select_slot_1
      [((1 : Int), (1 : ℚ)/10), (2, 2/10), (3, 9/10), (4, 3/10), (5, 15/100), (6, 5/100)] =
      some (3, 9/10) := by
    norm_num [select_slot_1, select_loop]
  have hgo : go_to_slot 6 (⟨6, 1, 1⟩ : FlywheelController) 3 =
      Except.ok (some (⟨6, 1, 3⟩, 2)) := rfl
  refine ⟨congrArg Prod.fst hsamp, hsel, ⟨2, rfl⟩, ?_, rfl⟩
  show configure_fw 6 (FlywheelController.init 6 1) demoPower = _
  simp only [configure_fw]
  rw [hsamp]
  dsimp only
  rw [hsel]
  dsimp only
  rw [hgo]

end Optoelectronics
